import Mathlib

/-!
Shallow embedding of `src/swebench/collect/get_top_c_cpp.py`: a one-shot
pipeline that searches a code-hosting service for C and C++ repositories,
filters them by language ratio, sorts them by stars and writes a rank window
of the result as newline-delimited JSON.

The external service is modelled by pure functions passed in as parameters:
`search query per_page page` stands for `api.search.repos(...)` (`none` is a
raised exception, `some items` the page's `result["items"]`), and
`list_languages owner repo` stands for `api.repos.list_languages(...)`.
Observable effects (file opens, record writes, warning prints) are collected
in an event trace; the `print` calls of the paginated fetcher are collected
in a log of strings.
-/

set_option maxRecDepth 8000

namespace GetTopCCpp

/-- A repository summary as returned by the search endpoint, with the fields
the script reads. -/
structure Repo where
  owner_login : String
  name : String
  full_name : String
  html_url : String
  stargazers_count : Int
  forks_count : Int
deriving DecidableEq, Repr

/-- The dict returned by `calculate_language_ratios`. -/
structure Ratios where
  c_ratio : ℚ
  cpp_ratio : ℚ
deriving DecidableEq, Repr

/-- Indexing `ratios[language_key]`; the script only ever indexes with the
keys "c_ratio" and "cpp_ratio". -/
def Ratios.getKey (r : Ratios) (language_key : String) : ℚ :=
  if language_key = "c_ratio" then r.c_ratio else r.cpp_ratio

/-- `calculate_language_ratios(languages)`: the fraction of C and of C++
lines among all lines of the breakdown, 0 when the total is 0. -/
def calculate_language_ratios (languages : List (String × Nat)) : Ratios :=
  let total_lines := (languages.map Prod.snd).sum
  let c_lines := (languages.lookup "C").getD 0
  let cpp_lines := (languages.lookup "C++").getD 0
  { c_ratio := if 0 < total_lines then (c_lines : ℚ) / (total_lines : ℚ) else 0,
    cpp_ratio := if 0 < total_lines then (cpp_lines : ℚ) / (total_lines : ℚ) else 0 }

/-- What `fetch_all_pages` produces: the repositories and the printed log. -/
structure FetchResult where
  repos : List Repo
  log : List String
deriving DecidableEq, Repr

/-- The `while len(repos) < max_repos` loop of `fetch_all_pages`. The search
call is `search per_page page`; `none` models a raised exception. -/
def fetchPagesLoop (search : Nat → Nat → Option (List Repo)) (max_repos per_page : Nat)
    (page : Nat) (repos : List Repo) (log : List String) : FetchResult :=
  if h : repos.length < max_repos then
    let log2 := log ++ [s!"Fetching page {page}"]
    match search per_page page with
    | none => ⟨repos, log2 ++ [s!"Error fetching page {page}"]⟩
    | some [] => ⟨repos, log2⟩
    | some (item :: items) =>
        fetchPagesLoop search max_repos per_page (page + 1) (repos ++ item :: items) log2
  else ⟨repos, log⟩
termination_by max_repos - repos.length
decreasing_by
  simp only [List.length_append, List.length_cons]
  omega

/-- `fetch_all_pages(query, max_repos)`: page size 100, starting at page 1,
result truncated to `max_repos`. -/
def fetch_all_pages (search : Nat → Nat → Option (List Repo)) (max_repos : Nat) :
    FetchResult :=
  let per_page := 100
  let r := fetchPagesLoop search max_repos per_page 1 [] []
  ⟨r.repos.take max_repos, r.log⟩

/-- The `for repo in repos` accumulation loop of `fetch_and_filter_repos`:
keep a repository when `ratios[language_key] >= ratio_threshold`. -/
def filterEligibleLoop (list_languages : String → String → List (String × Nat))
    (language_key : String) (ratio_threshold : ℚ) (repos : List Repo) : List Repo :=
  repos.foldl
    (fun eligible_repos repo =>
      let languages := list_languages repo.owner_login repo.name
      let ratios := calculate_language_ratios languages
      if ratio_threshold ≤ ratios.getKey language_key then eligible_repos ++ [repo]
      else eligible_repos)
    []

/-- `eligible_repos.sort(key=lambda x: x["stargazers_count"], reverse=True)`:
a stable sort, descending by stars. -/
def sortByStarsDesc (repos : List Repo) : List Repo :=
  repos.mergeSort fun a b => decide (b.stargazers_count ≤ a.stargazers_count)

/-- `fetch_and_filter_repos(query, language_key, ratio_threshold)` for one
already-applied query: fetch pages, filter by ratio, sort by stars. -/
def fetch_and_filter_repos (search : Nat → Nat → Option (List Repo))
    (list_languages : String → String → List (String × Nat))
    (language_key : String) (ratio_threshold : ℚ) (max_repos : Nat) :
    List Repo × List String :=
  let fetched := fetch_all_pages search max_repos
  let eligible_repos :=
    filterEligibleLoop list_languages language_key ratio_threshold fetched.repos
  (sortByStarsDesc eligible_repos, fetched.log)

/-- A JSON value as the emitted records use them. -/
inductive JVal where
  | s (v : String)
  | i (v : Int)
  | q (v : ℚ)
deriving DecidableEq, Repr

/-- One observable effect of the emission code: opening an output file in
write mode, printing one JSON record to it (with its flush flag), or
printing the not-enough-projects warning. -/
inductive Event where
  | openWrite (file : String)
  | writeLine (file : String) (fields : List (String × JVal)) (flush : Bool)
  | logWarn (msg : String)
deriving DecidableEq, Repr

/-- The JSON object passed to `json.dumps` for one repository, as an ordered
field list; the last key is the `language_key` of the run ("c_ratio" for the
C output, "cpp_ratio" for the C++ output), and its value re-fetches the
language breakdown and recomputes the ratio. -/
def makeRecord (list_languages : String → String → List (String × Nat))
    (language_key : String) (rank : Nat) (repo : Repo) : List (String × JVal) :=
  [("rank", JVal.i (rank : Int)),
   ("name", JVal.s repo.full_name),
   ("url", JVal.s repo.html_url),
   ("stars", JVal.i repo.stargazers_count),
   ("forks", JVal.i repo.forks_count),
   (language_key,
    JVal.q ((calculate_language_ratios
      (list_languages repo.owner_login repo.name)).getKey language_key))]

/-- The `with open(output_file, "w")` block for one language: the file is
opened first; then either the warning is printed (when fewer eligible
repositories than `min_rank` exist) or every repository whose 1-based rank
lies in `[min_rank, max_rank]` is written as one record with `flush=True`. -/
def emitLanguage (output_file : String)
    (list_languages : String → String → List (String × Nat))
    (language_key : String) (language_name : String)
    (eligible_repos : List Repo) (min_rank max_rank : Int) : List Event :=
  Event.openWrite output_file ::
    (if (eligible_repos.length : Int) < min_rank then
      [Event.logWarn
        s!"Not enough {language_name} projects to satisfy rank range ({min_rank}-{max_rank}). Found only {eligible_repos.length} projects."]
    else
      (List.enumFrom 1 eligible_repos).filterMap fun p =>
        if min_rank ≤ (p.1 : Int) ∧ (p.1 : Int) ≤ max_rank then
          some (Event.writeLine output_file
            (makeRecord list_languages language_key p.1 p.2) true)
        else none)

/-- `get_github_projects_by_language(...)`: run the fetch-filter-sort-emit
pipeline for "language:C" and then for "language:C++", threshold 0.9 each,
returning the event trace and the fetcher logs. -/
def get_github_projects_by_language (search : String → Nat → Nat → Option (List Repo))
    (list_languages : String → String → List (String × Nat))
    (max_repos : Nat) (output_file_c output_file_cpp : String)
    (min_rank max_rank : Int) : List Event × List String :=
  let query_c := "language:C"
  let query_cpp := "language:C++"
  let resultC :=
    fetch_and_filter_repos (search query_c) list_languages "c_ratio" (9 / 10) max_repos
  let eventsC :=
    emitLanguage output_file_c list_languages "c_ratio" "C" resultC.1 min_rank max_rank
  let resultCpp :=
    fetch_and_filter_repos (search query_cpp) list_languages "cpp_ratio" (9 / 10) max_repos
  let eventsCpp :=
    emitLanguage output_file_cpp list_languages "cpp_ratio" "C++" resultCpp.1 min_rank max_rank
  (eventsC ++ eventsCpp, resultC.2 ++ resultCpp.2)

/-- The message of the `ValueError` raised at module load when the token is
missing or empty. -/
def tokenErrorMsg : String := "Please set the GITHUB_TOKEN environment variable."

/-- The module-load prologue: `gh_token = os.environ.get("GITHUB_TOKEN")`
followed by `if not gh_token: raise ValueError(...)` (both a missing and an
empty value are falsy). -/
def moduleInit (env : String → Option String) : Except String Unit :=
  match env "GITHUB_TOKEN" with
  | none => Except.error tokenErrorMsg
  | some gh_token => if gh_token = "" then Except.error tokenErrorMsg else Except.ok ()

/-- The whole process: module initialization, then the pipeline. An
initialization error aborts before any fetching, filtering or writing. -/
def runProgram (env : String → Option String)
    (search : String → Nat → Nat → Option (List Repo))
    (list_languages : String → String → List (String × Nat))
    (max_repos : Nat) (output_file_c output_file_cpp : String)
    (min_rank max_rank : Int) : Except String (List Event × List String) :=
  match moduleInit env with
  | Except.error e => Except.error e
  | Except.ok _ =>
      Except.ok (get_github_projects_by_language search list_languages max_repos
        output_file_c output_file_cpp min_rank max_rank)

/-- File contents at the record level: the list of records written since the
file was last opened. -/
abbrev FileContents := List (List (String × JVal))

/-- Effect of one event on the file system: opening in write mode creates or
truncates the file to empty, a write appends one record, a warning print
touches no file. -/
def applyEvent (fs : String → Option FileContents) : Event → String → Option FileContents
  | Event.openWrite f => fun g => if g = f then some [] else fs g
  | Event.writeLine f fields _ => fun g =>
      if g = f then some ((fs f).getD [] ++ [fields]) else fs g
  | Event.logWarn _ => fs

/-- Effect of a whole trace on the file system. -/
def applyEvents (fs : String → Option FileContents) (events : List Event) :
    String → Option FileContents :=
  events.foldl applyEvent fs

/-- The records a trace writes to one file, in order. -/
def writtenRecords (events : List Event) (file : String) : List (List (String × JVal)) :=
  events.filterMap fun e =>
    match e with
    | Event.writeLine f fields _ => if f = file then some fields else none
    | _ => none

/-- The "rank" field of a record, when it is an integer. -/
def recordRank (fields : List (String × JVal)) : Option Int :=
  match fields.lookup "rank" with
  | some (JVal.i k) => some k
  | _ => none

/-- The rank numbers of the records a trace writes to one file. -/
def writtenRanks (events : List Event) (file : String) : List Int :=
  (writtenRecords events file).filterMap recordRank

/-! ### The paginated fetcher, characterized page by page -/

/-- The items one page of a unary page function contributes: `[]` both for an
empty page and for a failed request. -/
def pageItems (query : Nat → Option (List Repo)) (page : Nat) : List Repo :=
  (query page).getD []

/-- Concatenation of the items of pages `start, ..., start + count - 1`. -/
def pagesConcat (query : Nat → Option (List Repo)) (start count : Nat) : List Repo :=
  (List.range' start count).flatMap (pageItems query)

theorem pagesConcat_zero (query : Nat → Option (List Repo)) (start : Nat) :
    pagesConcat query start 0 = [] := rfl

theorem pagesConcat_succ_left (query : Nat → Option (List Repo)) (start count : Nat) :
    pagesConcat query start (count + 1) =
      pageItems query start ++ pagesConcat query (start + 1) count := by
  simp [pagesConcat, List.range'_succ]

theorem fetchPagesLoop_done (search : Nat → Nat → Option (List Repo))
    (max_repos per_page page : Nat) (repos : List Repo) (log : List String)
    (h : ¬ repos.length < max_repos) :
    fetchPagesLoop search max_repos per_page page repos log = ⟨repos, log⟩ := by
  rw [fetchPagesLoop]
  simp [h]

theorem fetchPagesLoop_none (search : Nat → Nat → Option (List Repo))
    (max_repos per_page page : Nat) (repos : List Repo) (log : List String)
    (h : repos.length < max_repos) (he : search per_page page = none) :
    fetchPagesLoop search max_repos per_page page repos log =
      ⟨repos, log ++ [s!"Fetching page {page}", s!"Error fetching page {page}"]⟩ := by
  rw [fetchPagesLoop]
  simp [h, he]

theorem fetchPagesLoop_emptyPage (search : Nat → Nat → Option (List Repo))
    (max_repos per_page page : Nat) (repos : List Repo) (log : List String)
    (h : repos.length < max_repos) (he : search per_page page = some []) :
    fetchPagesLoop search max_repos per_page page repos log =
      ⟨repos, log ++ [s!"Fetching page {page}"]⟩ := by
  rw [fetchPagesLoop]
  simp [h, he]

theorem fetchPagesLoop_step (search : Nat → Nat → Option (List Repo))
    (max_repos per_page page : Nat) (repos : List Repo) (log : List String)
    (h : repos.length < max_repos) (x : Repo) (xs : List Repo)
    (he : search per_page page = some (x :: xs)) :
    fetchPagesLoop search max_repos per_page page repos log =
      fetchPagesLoop search max_repos per_page (page + 1) (repos ++ x :: xs)
        (log ++ [s!"Fetching page {page}"]) := by
  conv_lhs => rw [fetchPagesLoop]
  simp [h, he]

/-- Full characterization of the fetch loop from any starting state: some
number `k` of successful nonempty pages is consumed; before each of them the
accumulated count was below `max_repos`; the result is the accumulator
extended by those pages; and if the loop did not stop for reaching
`max_repos`, then page `page + k` failed or was empty. -/
theorem fetchPagesLoop_run (search : Nat → Nat → Option (List Repo))
    (max_repos per_page n : Nat) :
    ∀ (page : Nat) (repos : List Repo) (log : List String),
      max_repos - repos.length ≤ n →
      ∃ k : Nat,
        (∀ j, page ≤ j → j < page + k → ∃ x xs, search per_page j = some (x :: xs)) ∧
        (∀ i, i < k →
          (repos ++ pagesConcat (search per_page) page i).length < max_repos) ∧
        (fetchPagesLoop search max_repos per_page page repos log).repos =
          repos ++ pagesConcat (search per_page) page k ∧
        ((repos ++ pagesConcat (search per_page) page k).length < max_repos →
          search per_page (page + k) = none ∨ search per_page (page + k) = some []) := by
  induction n with
  | zero =>
    intro page repos log hn
    have hge : ¬ repos.length < max_repos := by omega
    refine ⟨0, fun j h1 h2 => absurd h2 (by omega), fun i hi => absurd hi (by omega), ?_, ?_⟩
    · rw [fetchPagesLoop_done search max_repos per_page page repos log hge]
      simp [pagesConcat_zero]
    · intro hlt
      rw [pagesConcat_zero, List.append_nil] at hlt
      exact absurd hlt hge
  | succ n ih =>
    intro page repos log hn
    by_cases h : repos.length < max_repos
    · cases he : search per_page page with
      | none =>
        refine ⟨0, fun j h1 h2 => absurd h2 (by omega), fun i hi => absurd hi (by omega),
          ?_, ?_⟩
        · rw [fetchPagesLoop_none search max_repos per_page page repos log h he]
          simp [pagesConcat_zero]
        · intro _
          left
          simpa using he
      | some items =>
        cases items with
        | nil =>
          refine ⟨0, fun j h1 h2 => absurd h2 (by omega), fun i hi => absurd hi (by omega),
            ?_, ?_⟩
          · rw [fetchPagesLoop_emptyPage search max_repos per_page page repos log h he]
            simp [pagesConcat_zero]
          · intro _
            right
            simpa using he
        | cons x xs =>
          have hpage : pageItems (search per_page) page = x :: xs := by
            simp [pageItems, he]
          obtain ⟨k, hA, hB, hC, hD⟩ :=
            ih (page + 1) (repos ++ x :: xs) (log ++ [s!"Fetching page {page}"])
              (by simp only [List.length_append, List.length_cons]; omega)
          refine ⟨k + 1, ?_, ?_, ?_, ?_⟩
          · intro j h1 h2
            rcases Nat.eq_or_lt_of_le h1 with h1' | h1'
            · exact ⟨x, xs, h1' ▸ he⟩
            · exact hA j h1' (by omega)
          · intro i hi
            cases i with
            | zero => simpa [pagesConcat_zero] using h
            | succ i' =>
              have := hB i' (by omega)
              rw [pagesConcat_succ_left, hpage, ← List.append_assoc]
              simpa using this
          · rw [fetchPagesLoop_step search max_repos per_page page repos log h x xs he,
              hC, pagesConcat_succ_left, hpage, List.append_assoc]
          · intro hlt
            have hfull : repos ++ pagesConcat (search per_page) page (k + 1) =
                (repos ++ x :: xs) ++ pagesConcat (search per_page) (page + 1) k := by
              rw [pagesConcat_succ_left, hpage, List.append_assoc]
            rw [hfull] at hlt
            have := hD hlt
            have harith : page + 1 + k = page + (k + 1) := by omega
            rwa [harith] at this
    · refine ⟨0, fun j h1 h2 => absurd h2 (by omega), fun i hi => absurd hi (by omega),
        ?_, ?_⟩
      · rw [fetchPagesLoop_done search max_repos per_page page repos log h]
        simp [pagesConcat_zero]
      · intro hlt
        rw [pagesConcat_zero, List.append_nil] at hlt
        exact absurd hlt h

/-- A placeholder repository for mock services. -/
def mockRepo : Repo :=
  { owner_login := "octo", name := "proj", full_name := "octo/proj",
    html_url := "https://example.invalid/octo/proj", stargazers_count := 1,
    forks_count := 0 }

/-- A mock search service: pages 1 to 3 each return a full page of
`per_page` items, every later page is empty. -/
def mockSearch3 (per_page page : Nat) : Option (List Repo) :=
  if page ≤ 3 then some (List.replicate per_page mockRepo) else some []

/-- C2: for every search service and every `max_repos`, the fetcher consumes
some number `k` of successful nonempty pages, each requested with page size
100, stopping exactly when the accumulated count reaches `max_repos` (before
each consumed page it was still below it) or the next page fails or is
empty; the returned list is the accumulated pages truncated to `max_repos`.
With a mock service returning 3 pages of 100 items and then an empty page,
`max_repos = 1000` yields exactly 300 results. -/
theorem claim_C2 :
    (∀ (search : Nat → Nat → Option (List Repo)) (max_repos : Nat),
      ∃ k : Nat,
        (∀ j, 1 ≤ j → j < 1 + k → ∃ x xs, search 100 j = some (x :: xs)) ∧
        (∀ i, i < k → (pagesConcat (search 100) 1 i).length < max_repos) ∧
        (fetch_all_pages search max_repos).repos =
          (pagesConcat (search 100) 1 k).take max_repos ∧
        ((pagesConcat (search 100) 1 k).length < max_repos →
          search 100 (1 + k) = none ∨ search 100 (1 + k) = some [])) ∧
    (fetch_all_pages mockSearch3 1000).repos.length = 300 := by
  constructor
  · intro search max_repos
    obtain ⟨k, hA, hB, hC, hD⟩ :=
      fetchPagesLoop_run search max_repos 100 max_repos 1 [] [] (by omega)
    refine ⟨k, hA, by simpa using hB, ?_, by simpa using hD⟩
    show (fetchPagesLoop search max_repos 100 1 [] []).repos.take max_repos = _
    rw [hC]
    simp
  · obtain ⟨k, hA, hB, hC, hD⟩ :=
      fetchPagesLoop_run mockSearch3 1000 100 1000 1 [] [] (by omega)
    have hub : k ≤ 3 := by
      by_contra hgt
      obtain ⟨x, xs, hx⟩ := hA 4 (by omega) (by omega)
      simp [mockSearch3] at hx
    have hk : k = 3 := by
      interval_cases k
      · exact absurd (hD (by decide)) (by decide)
      · exact absurd (hD (by decide)) (by decide)
      · exact absurd (hD (by decide)) (by decide)
      · rfl
    subst hk
    show ((fetchPagesLoop mockSearch3 1000 100 1 [] []).repos.take 1000).length = 300
    rw [hC]
    decide

/-! ### The windowed emitter, characterized record by record -/

theorem mem_filterMap_ite {α β : Type} (l : List α) (p : α → Prop) [DecidablePred p]
    (f : α → β) (b : β) :
    b ∈ l.filterMap (fun a => if p a then some (f a) else none) ↔
      ∃ a ∈ l, p a ∧ f a = b := by
  simp only [List.mem_filterMap]
  constructor
  · rintro ⟨a, ha, hb⟩
    by_cases hp : p a
    · rw [if_pos hp] at hb
      exact ⟨a, ha, hp, Option.some.inj hb⟩
    · rw [if_neg hp] at hb
      exact absurd hb (by simp)
  · rintro ⟨a, ha, hp, hf⟩
    exact ⟨a, ha, by rw [if_pos hp, hf]⟩

theorem exists_fst_enumFrom {α : Type} (l : List α) (start : Nat) (P : Nat → Prop) :
    (∃ p ∈ List.enumFrom start l, P p.1) ↔ ∃ n ∈ List.range' start l.length, P n := by
  constructor
  · rintro ⟨p, hp, h⟩
    refine ⟨p.1, ?_, h⟩
    rw [← List.enumFrom_map_fst start l]
    exact List.mem_map_of_mem _ hp
  · rintro ⟨n, hn, h⟩
    rw [← List.enumFrom_map_fst start l] at hn
    obtain ⟨p, hp, rfl⟩ := List.mem_map.1 hn
    exact ⟨p, hp, h⟩

theorem recordRank_makeRecord (list_languages : String → String → List (String × Nat))
    (language_key : String) (rank : Nat) (repo : Repo) :
    recordRank (makeRecord list_languages language_key rank repo) = some (rank : Int) :=
  rfl

/-- On the warning path the emitter produces exactly the file-open event and
one warning. -/
theorem emitLanguage_of_lt (output_file : String)
    (list_languages : String → String → List (String × Nat))
    (language_key language_name : String) (eligible_repos : List Repo)
    (min_rank max_rank : Int) (h : (eligible_repos.length : Int) < min_rank) :
    emitLanguage output_file list_languages language_key language_name eligible_repos
        min_rank max_rank =
      [Event.openWrite output_file,
       Event.logWarn
        s!"Not enough {language_name} projects to satisfy rank range ({min_rank}-{max_rank}). Found only {eligible_repos.length} projects."] := by
  rw [emitLanguage, if_pos h]

/-- Off the warning path the records written to the output file are exactly
the in-window entries of the rank enumeration. -/
theorem writtenRecords_emitLanguage (output_file : String)
    (list_languages : String → String → List (String × Nat))
    (language_key language_name : String) (eligible_repos : List Repo)
    (min_rank max_rank : Int) (h : ¬ (eligible_repos.length : Int) < min_rank) :
    writtenRecords
        (emitLanguage output_file list_languages language_key language_name eligible_repos
          min_rank max_rank) output_file =
      (List.enumFrom 1 eligible_repos).filterMap fun p =>
        if min_rank ≤ (p.1 : Int) ∧ (p.1 : Int) ≤ max_rank then
          some (makeRecord list_languages language_key p.1 p.2)
        else none := by
  rw [emitLanguage, if_neg h, writtenRecords, List.filterMap_cons]
  simp only [List.filterMap_filterMap]
  congr 1
  funext p
  by_cases hw : min_rank ≤ (p.1 : Int) ∧ (p.1 : Int) ≤ max_rank
  · simp [hw]
  · simp [hw]

/-- C1: the rank numbers written for an eligible list of length `N` are
exactly the integers of `[min_rank, max_rank] ∩ [1, N]`; when
`N < min_rank`, no record is written and a warning is logged instead. -/
theorem claim_C1 (output_file : String)
    (list_languages : String → String → List (String × Nat))
    (language_key language_name : String) (eligible_repos : List Repo)
    (min_rank max_rank : Int) :
    (∀ r : Int,
      r ∈ writtenRanks
            (emitLanguage output_file list_languages language_key language_name
              eligible_repos min_rank max_rank) output_file ↔
        min_rank ≤ r ∧ r ≤ max_rank ∧ 1 ≤ r ∧ r ≤ (eligible_repos.length : Int)) ∧
    ((eligible_repos.length : Int) < min_rank →
      writtenRecords
          (emitLanguage output_file list_languages language_key language_name
            eligible_repos min_rank max_rank) output_file = [] ∧
        ∃ msg, Event.logWarn msg ∈
          emitLanguage output_file list_languages language_key language_name
            eligible_repos min_rank max_rank) := by
  by_cases h : (eligible_repos.length : Int) < min_rank
  · constructor
    · intro r
      rw [writtenRanks, emitLanguage_of_lt _ _ _ _ _ _ _ h]
      simp only [writtenRecords, List.filterMap_cons, List.filterMap_nil]
      constructor
      · intro hr
        simp at hr
      · intro hr
        omega
    · intro _
      refine ⟨?_, ?_⟩
      · rw [emitLanguage_of_lt _ _ _ _ _ _ _ h]
        simp [writtenRecords, List.filterMap_cons]
      · rw [emitLanguage_of_lt _ _ _ _ _ _ _ h]
        exact ⟨_, List.mem_cons_of_mem _ (List.mem_singleton_self _)⟩
  · refine ⟨?_, fun h' => absurd h' h⟩
    intro r
    rw [writtenRanks, writtenRecords_emitLanguage _ _ _ _ _ _ _ h,
      List.filterMap_filterMap]
    have hfun : (fun p : Nat × Repo =>
        (if min_rank ≤ (p.1 : Int) ∧ (p.1 : Int) ≤ max_rank then
          some (makeRecord list_languages language_key p.1 p.2)
        else none).bind recordRank) =
        fun p : Nat × Repo =>
          if min_rank ≤ (p.1 : Int) ∧ (p.1 : Int) ≤ max_rank then some ((p.1 : Int))
          else none := by
      funext p
      by_cases hw : min_rank ≤ (p.1 : Int) ∧ (p.1 : Int) ≤ max_rank
      · simp [hw, recordRank_makeRecord]
      · simp [hw]
    rw [hfun,
      mem_filterMap_ite (List.enumFrom 1 eligible_repos)
        (fun p => min_rank ≤ (p.1 : Int) ∧ (p.1 : Int) ≤ max_rank)
        (fun p => (p.1 : Int)) r]
    rw [exists_fst_enumFrom eligible_repos 1
      (fun n => (min_rank ≤ (n : Int) ∧ (n : Int) ≤ max_rank) ∧ (n : Int) = r)]
    simp only [List.mem_range'_1]
    constructor
    · rintro ⟨n, hn, ⟨h1, h2⟩, rfl⟩
      omega
    · rintro ⟨h1, h2, h3, h4⟩
      exact ⟨r.toNat, by omega, by omega, by omega⟩

/-- C5: a language breakdown whose line counts sum to zero yields ratio 0
for both C and C++; the computation is total, so no division fault can
occur. -/
theorem claim_C5 (languages : List (String × Nat))
    (h : (languages.map Prod.snd).sum = 0) :
    calculate_language_ratios languages = { c_ratio := 0, cpp_ratio := 0 } := by
  unfold calculate_language_ratios
  simp [h]

theorem claim_C5_witness :
    (([] : List (String × Nat)).map Prod.snd).sum = 0 ∧
    calculate_language_ratios [] = { c_ratio := 0, cpp_ratio := 0 } :=
  ⟨rfl, claim_C5 [] rfl⟩

/-- C8: when the credential token is absent from the environment, the
program stops with the startup error and produces no fetch, filter or write
effects (the result carries no event trace). -/
theorem claim_C8 (env : String → Option String)
    (search : String → Nat → Nat → Option (List Repo))
    (list_languages : String → String → List (String × Nat))
    (max_repos : Nat) (output_file_c output_file_cpp : String)
    (min_rank max_rank : Int) (h : env "GITHUB_TOKEN" = none) :
    runProgram env search list_languages max_repos output_file_c output_file_cpp
        min_rank max_rank =
      Except.error tokenErrorMsg := by
  unfold runProgram moduleInit
  rw [h]

theorem claim_C8_witness :
    ((fun _ : String => (none : Option String)) "GITHUB_TOKEN" = none) ∧
    runProgram (fun _ => none) (fun _ _ _ => none) (fun _ _ => []) 0 "github_c_rankings.jsonl"
        "github_cpp_rankings.jsonl" 50 100 =
      Except.error tokenErrorMsg :=
  ⟨rfl, claim_C8 _ _ _ _ _ _ _ _ rfl⟩

/-- C10: the output file is opened in write mode before the eligibility
check, so on the warning path (`N < min_rank`) the file still ends up
created and truncated to empty, whatever it held before. -/
theorem claim_C10 (fs : String → Option FileContents) (output_file : String)
    (list_languages : String → String → List (String × Nat))
    (language_key language_name : String) (eligible_repos : List Repo)
    (min_rank max_rank : Int) (h : (eligible_repos.length : Int) < min_rank) :
    (emitLanguage output_file list_languages language_key language_name eligible_repos
        min_rank max_rank).head? = some (Event.openWrite output_file) ∧
    applyEvents fs
        (emitLanguage output_file list_languages language_key language_name
          eligible_repos min_rank max_rank) output_file = some [] := by
  constructor
  · rw [emitLanguage]
    rfl
  · rw [emitLanguage_of_lt _ _ _ _ _ _ _ h]
    simp [applyEvents, applyEvent]

theorem claim_C10_witness :
    ((([] : List Repo).length : Int) < 1) ∧
    ((emitLanguage "github_c_rankings.jsonl" (fun _ _ => []) "c_ratio" "C" [] 1 5).head? =
      some (Event.openWrite "github_c_rankings.jsonl") ∧
    applyEvents (fun _ => some [[("stale", JVal.i 7)]])
        (emitLanguage "github_c_rankings.jsonl" (fun _ _ => []) "c_ratio" "C" [] 1 5)
        "github_c_rankings.jsonl" = some []) :=
  ⟨by decide,
   claim_C10 (fun _ => some [[("stale", JVal.i 7)]]) "github_c_rankings.jsonl"
     (fun _ _ => []) "c_ratio" "C" [] 1 5 (by decide)⟩

/-! ### The language-ratio filter and the ranker -/

theorem foldl_append_ite {α : Type} (p : α → Prop) [DecidablePred p] :
    ∀ (l : List α) (init : List α),
      l.foldl (fun acc a => if p a then acc ++ [a] else acc) init =
        init ++ l.filter fun a => decide (p a) := by
  intro l
  induction l with
  | nil => intro init; simp
  | cons x xs ih =>
    intro init
    by_cases hx : p x
    · rw [List.foldl_cons, if_pos hx, ih, List.filter_cons]
      simp [hx]
    · rw [List.foldl_cons, if_neg hx, ih, List.filter_cons]
      simp [hx]

theorem filterEligibleLoop_eq_filter (list_languages : String → String → List (String × Nat))
    (language_key : String) (ratio_threshold : ℚ) (repos : List Repo) :
    filterEligibleLoop list_languages language_key ratio_threshold repos =
      repos.filter fun repo =>
        decide (ratio_threshold ≤ (calculate_language_ratios
          (list_languages repo.owner_login repo.name)).getKey language_key) := by
  show repos.foldl
    (fun eligible_repos repo =>
      if ratio_threshold ≤ (calculate_language_ratios
          (list_languages repo.owner_login repo.name)).getKey language_key then
        eligible_repos ++ [repo]
      else eligible_repos) [] = _
  rw [foldl_append_ite
    (fun repo => ratio_threshold ≤ (calculate_language_ratios
      (list_languages repo.owner_login repo.name)).getKey language_key) repos []]
  simp

/-- C3: the fetch-and-filter stage keeps a fetched repository if and only if
its computed language ratio is at least the 0.9 threshold (membership is
taken after the final sort, which only permutes). -/
theorem claim_C3 (search : Nat → Nat → Option (List Repo))
    (list_languages : String → String → List (String × Nat))
    (language_key : String) (max_repos : Nat) (repo : Repo) :
    repo ∈ (fetch_and_filter_repos search list_languages language_key (9 / 10) max_repos).1 ↔
      repo ∈ (fetch_all_pages search max_repos).repos ∧
        (9 / 10 : ℚ) ≤ (calculate_language_ratios
          (list_languages repo.owner_login repo.name)).getKey language_key := by
  show repo ∈ sortByStarsDesc (filterEligibleLoop list_languages language_key (9 / 10)
    (fetch_all_pages search max_repos).repos) ↔ _
  rw [filterEligibleLoop_eq_filter, sortByStarsDesc, List.mem_mergeSort, List.mem_filter]
  simp

/-- C4: the ranker's output is sorted by star count descending, and the sort
is stable: the subsequence of repositories with any fixed star count is
exactly the same as in its input. -/
theorem claim_C4 (repos : List Repo) :
    ((sortByStarsDesc repos).Pairwise fun a b =>
      b.stargazers_count ≤ a.stargazers_count) ∧
    ∀ s : Int,
      (sortByStarsDesc repos).filter (fun r => decide (r.stargazers_count = s)) =
        repos.filter fun r => decide (r.stargazers_count = s) := by
  have htrans : ∀ a b c : Repo,
      decide (b.stargazers_count ≤ a.stargazers_count) = true →
      decide (c.stargazers_count ≤ b.stargazers_count) = true →
      decide (c.stargazers_count ≤ a.stargazers_count) = true := by
    intro a b c h1 h2
    simp only [decide_eq_true_eq] at *
    omega
  have htotal : ∀ a b : Repo,
      (decide (b.stargazers_count ≤ a.stargazers_count) ||
        decide (a.stargazers_count ≤ b.stargazers_count)) = true := by
    intro a b
    simp only [Bool.or_eq_true, decide_eq_true_eq]
    omega
  constructor
  · exact (List.sorted_mergeSort htrans htotal repos).imp fun h => by
      simpa using h
  · intro s
    have hmem : ∀ r ∈ repos.filter fun r => decide (r.stargazers_count = s),
        r.stargazers_count = s := by
      intro r hr
      simpa using (List.mem_filter.1 hr).2
    have hpw : (repos.filter fun r => decide (r.stargazers_count = s)).Pairwise
        fun a b => decide (b.stargazers_count ≤ a.stargazers_count) = true := by
      refine List.pairwise_of_forall_mem_list ?_
      intro a ha b hb
      simp [hmem a ha, hmem b hb]
    have hsub : List.Sublist (repos.filter fun r => decide (r.stargazers_count = s))
        (sortByStarsDesc repos) :=
      List.sublist_mergeSort htrans htotal hpw (List.filter_sublist repos)
    have hsub2 : List.Sublist (repos.filter fun r => decide (r.stargazers_count = s))
        ((sortByStarsDesc repos).filter fun r => decide (r.stargazers_count = s)) := by
      have := hsub.filter fun r => decide (r.stargazers_count = s)
      rwa [List.filter_filter, show
        (fun r : Repo => decide (r.stargazers_count = s) && decide (r.stargazers_count = s)) =
          fun r : Repo => decide (r.stargazers_count = s) from funext fun r => Bool.and_self _]
        at this
    have hlen : (repos.filter fun r => decide (r.stargazers_count = s)).length =
        ((sortByStarsDesc repos).filter fun r => decide (r.stargazers_count = s)).length :=
      (((List.mergeSort_perm repos _).filter _).length_eq).symm
    exact (hsub2.eq_of_length hlen).symm

/-! ### The fetcher's error path -/

/-- Running the loop into a failing page: pages `page .. page + k - 1`
succeed nonempty, page `page + k` raises, and the accumulated count stays
below `max_repos`; then the loop returns exactly the collected pages, and
the log shows each page requested once, then the error. -/
theorem fetchPagesLoop_errorRun (search : Nat → Nat → Option (List Repo))
    (max_repos per_page : Nat) :
    ∀ (k page : Nat) (repos : List Repo) (log : List String),
      (∀ j, page ≤ j → j < page + k → ∃ x xs, search per_page j = some (x :: xs)) →
      search per_page (page + k) = none →
      (repos ++ pagesConcat (search per_page) page k).length < max_repos →
      fetchPagesLoop search max_repos per_page page repos log =
        ⟨repos ++ pagesConcat (search per_page) page k,
         log ++ (List.range' page (k + 1)).map (fun j => s!"Fetching page {j}") ++
           [s!"Error fetching page {page + k}"]⟩ := by
  intro k
  induction k with
  | zero =>
    intro page repos log hsucc hfail hlen
    rw [pagesConcat_zero, List.append_nil] at hlen ⊢
    rw [Nat.add_zero] at hfail ⊢
    rw [fetchPagesLoop_none search max_repos per_page page repos log hlen hfail]
    simp
  | succ k ih =>
    intro page repos log hsucc hfail hlen
    obtain ⟨x, xs, he⟩ := hsucc page (Nat.le_refl page) (by omega)
    have hpage : pageItems (search per_page) page = x :: xs := by
      simp [pageItems, he]
    have hfull : repos ++ pagesConcat (search per_page) page (k + 1) =
        (repos ++ x :: xs) ++ pagesConcat (search per_page) (page + 1) k := by
      rw [pagesConcat_succ_left, hpage, List.append_assoc]
    have hlt : repos.length < max_repos := by
      rw [hfull] at hlen
      simp only [List.length_append, List.length_cons] at hlen
      omega
    rw [fetchPagesLoop_step search max_repos per_page page repos log hlt x xs he]
    rw [ih (page + 1) (repos ++ x :: xs) (log ++ [s!"Fetching page {page}"])
      (fun j h1 h2 => hsucc j (by omega) (by omega))
      (by rw [show page + 1 + k = page + (k + 1) from by omega]; exact hfail)
      (by rw [← hfull]; exact hlen)]
    rw [hfull]
    have hrange : List.range' page (k + 1 + 1) = page :: List.range' (page + 1) (k + 1) :=
      List.range'_succ page (k + 1) 1
    rw [hrange]
    simp [show page + 1 + k = page + (k + 1) from by omega]

/-- C7: when a page request fails, the fetcher logs the error, stops (each
page was requested exactly once, so there is no retry) and returns exactly
the repositories collected before the failure, truncated to `max_repos`. -/
theorem claim_C7 (search : Nat → Nat → Option (List Repo)) (max_repos k : Nat)
    (hsucc : ∀ j, 1 ≤ j → j < 1 + k → ∃ x xs, search 100 j = some (x :: xs))
    (hfail : search 100 (1 + k) = none)
    (hlen : (pagesConcat (search 100) 1 k).length < max_repos) :
    fetch_all_pages search max_repos =
      ⟨pagesConcat (search 100) 1 k,
       (List.range' 1 (k + 1)).map (fun j => s!"Fetching page {j}") ++
         [s!"Error fetching page {1 + k}"]⟩ := by
  show FetchResult.mk ((fetchPagesLoop search max_repos 100 1 [] []).repos.take max_repos)
    (fetchPagesLoop search max_repos 100 1 [] []).log = _
  rw [fetchPagesLoop_errorRun search max_repos 100 k 1 [] [] hsucc hfail
    (by simpa using hlen)]
  simp only [List.nil_append]
  rw [List.take_of_length_le (Nat.le_of_lt hlen)]

/-- A mock search service whose first page succeeds and whose second page
raises. -/
def errSearch (per_page page : Nat) : Option (List Repo) :=
  if page = 1 then some [mockRepo] else none

theorem claim_C7_witness :
    (∀ j, 1 ≤ j → j < 1 + 1 → ∃ x xs, errSearch 100 j = some (x :: xs)) ∧
    errSearch 100 (1 + 1) = none ∧
    (pagesConcat (errSearch 100) 1 1).length < 10 ∧
    fetch_all_pages errSearch 10 =
      ⟨pagesConcat (errSearch 100) 1 1,
       (List.range' 1 (1 + 1)).map (fun j => s!"Fetching page {j}") ++
         [s!"Error fetching page {1 + 1}"]⟩ := by
  have hs : ∀ j, 1 ≤ j → j < 1 + 1 → ∃ x xs, errSearch 100 j = some (x :: xs) := by
    intro j h1 h2
    have : j = 1 := by omega
    subst this
    exact ⟨mockRepo, [], rfl⟩
  exact ⟨hs, rfl, by decide, claim_C7 errSearch 10 1 hs rfl (by decide)⟩

/-! ### The shape of written records -/

/-- Every record-write event an emitter run produces targets its output
file, carries `flush = true`, and its fields are `makeRecord` for some rank
and some member of the eligible list. -/
theorem writeLine_mem_emitLanguage (output_file : String)
    (list_languages : String → String → List (String × Nat))
    (language_key language_name : String) (eligible_repos : List Repo)
    (min_rank max_rank : Int) (f : String) (fields : List (String × JVal)) (fl : Bool)
    (h : Event.writeLine f fields fl ∈
      emitLanguage output_file list_languages language_key language_name eligible_repos
        min_rank max_rank) :
    f = output_file ∧ fl = true ∧
      ∃ rank : Nat, ∃ repo ∈ eligible_repos,
        fields = makeRecord list_languages language_key rank repo := by
  rw [emitLanguage] at h
  rcases List.mem_cons.1 h with h1 | h2
  · exact absurd h1 (by simp)
  · by_cases hlt : (eligible_repos.length : Int) < min_rank
    · rw [if_pos hlt] at h2
      simp at h2
    · rw [if_neg hlt] at h2
      obtain ⟨p, hp, heq⟩ := List.mem_filterMap.1 h2
      by_cases hw : min_rank ≤ (p.1 : Int) ∧ (p.1 : Int) ≤ max_rank
      · rw [if_pos hw] at heq
        obtain ⟨hf, hfields, hfl⟩ := Event.writeLine.inj (Option.some.inj heq)
        refine ⟨hf.symm, hfl.symm, p.1, p.2, ?_, hfields.symm⟩
        have := List.mem_map_of_mem Prod.snd hp
        rwa [List.enumFrom_map_snd 1 eligible_repos] at this
      · rw [if_neg hw] at heq
        exact absurd heq (by simp)

/-- C6 (amended): every record the pipeline writes is flushed immediately,
and its field set is exactly rank, name, url, stars, forks and the
language-ratio key of the output file it was written to — "c_ratio" for a
record written to the C output file, "cpp_ratio" for a record written to
the C++ output file (not a field literally named "ratio"). -/
theorem claim_C6 (search : String → Nat → Nat → Option (List Repo))
    (list_languages : String → String → List (String × Nat))
    (max_repos : Nat) (output_file_c output_file_cpp : String)
    (min_rank max_rank : Int) (f : String) (fields : List (String × JVal)) (fl : Bool)
    (h : Event.writeLine f fields fl ∈
      (get_github_projects_by_language search list_languages max_repos output_file_c
        output_file_cpp min_rank max_rank).1) :
    fl = true ∧
      ((f = output_file_c ∧
        fields.map Prod.fst = ["rank", "name", "url", "stars", "forks", "c_ratio"]) ∨
       (f = output_file_cpp ∧
        fields.map Prod.fst = ["rank", "name", "url", "stars", "forks", "cpp_ratio"])) := by
  simp only [get_github_projects_by_language] at h
  rcases List.mem_append.1 h with hc | hcpp
  · obtain ⟨hf, hfl, rank, repo, -, hfields⟩ :=
      writeLine_mem_emitLanguage _ _ _ _ _ _ _ _ _ _ hc
    subst hfields
    exact ⟨hfl, Or.inl ⟨hf, rfl⟩⟩
  · obtain ⟨hf, hfl, rank, repo, -, hfields⟩ :=
      writeLine_mem_emitLanguage _ _ _ _ _ _ _ _ _ _ hcpp
    subst hfields
    exact ⟨hfl, Or.inr ⟨hf, rfl⟩⟩

/-- C9: every record the pipeline writes names a repository that passed the
filter, and the ratio value stored under its language key is the ratio the
same pure breakdown function yields for that repository — the value the
filter compared against the threshold — hence at least 0.9. -/
theorem claim_C9 (search : String → Nat → Nat → Option (List Repo))
    (list_languages : String → String → List (String × Nat))
    (max_repos : Nat) (output_file_c output_file_cpp : String)
    (min_rank max_rank : Int) (f : String) (fields : List (String × JVal)) (fl : Bool)
    (h : Event.writeLine f fields fl ∈
      (get_github_projects_by_language search list_languages max_repos output_file_c
        output_file_cpp min_rank max_rank).1) :
    ∃ repo : Repo, ∃ key : String,
      (key = "c_ratio" ∨ key = "cpp_ratio") ∧
      fields.lookup "name" = some (JVal.s repo.full_name) ∧
      fields.lookup key =
        some (JVal.q ((calculate_language_ratios
          (list_languages repo.owner_login repo.name)).getKey key)) ∧
      (9 / 10 : ℚ) ≤ (calculate_language_ratios
        (list_languages repo.owner_login repo.name)).getKey key := by
  simp only [get_github_projects_by_language] at h
  rcases List.mem_append.1 h with hc | hcpp
  · obtain ⟨-, -, rank, repo, hrepo, hfields⟩ :=
      writeLine_mem_emitLanguage _ _ _ _ _ _ _ _ _ _ hc
    subst hfields
    refine ⟨repo, "c_ratio", Or.inl rfl, rfl, rfl, ?_⟩
    have := List.mem_mergeSort.1 hrepo
    rw [filterEligibleLoop_eq_filter] at this
    simpa using (List.mem_filter.1 this).2
  · obtain ⟨-, -, rank, repo, hrepo, hfields⟩ :=
      writeLine_mem_emitLanguage _ _ _ _ _ _ _ _ _ _ hcpp
    subst hfields
    refine ⟨repo, "cpp_ratio", Or.inr rfl, rfl, rfl, ?_⟩
    have := List.mem_mergeSort.1 hrepo
    rw [filterEligibleLoop_eq_filter] at this
    simpa using (List.mem_filter.1 this).2

/-! ### A concrete end-to-end run, for witnesses and the C6 counterexample -/

/-- A mock search service: one repository on page 1, nothing afterwards. -/
def sampleSearch : String → Nat → Nat → Option (List Repo) :=
  fun _ _ page => if page = 1 then some [mockRepo] else some []

/-- A mock breakdown service: every repository is 100 lines of pure C. -/
def sampleLangs : String → String → List (String × Nat) :=
  fun _ _ => [("C", 100)]

theorem sampleFetch (q : String) :
    fetch_all_pages (sampleSearch q) 1 = ⟨[mockRepo], ["Fetching page 1"]⟩ := by
  show FetchResult.mk ((fetchPagesLoop (sampleSearch q) 1 100 1 [] []).repos.take 1)
    (fetchPagesLoop (sampleSearch q) 1 100 1 [] []).log = _
  rw [fetchPagesLoop_step (sampleSearch q) 1 100 1 [] [] (by decide) mockRepo [] rfl]
  rw [fetchPagesLoop_done]
  · decide
  · decide

theorem samplePipeline_c :
    fetch_and_filter_repos (sampleSearch "language:C") sampleLangs "c_ratio" (9 / 10) 1 =
      ([mockRepo], ["Fetching page 1"]) := by
  simp only [fetch_and_filter_repos]
  rw [sampleFetch "language:C"]
  rw [show filterEligibleLoop sampleLangs "c_ratio" (9 / 10)
    (FetchResult.mk [mockRepo] ["Fetching page 1"]).repos = [mockRepo] from by
      with_unfolding_all decide]
  simp [sortByStarsDesc]

theorem samplePipeline_cpp :
    fetch_and_filter_repos (sampleSearch "language:C++") sampleLangs "cpp_ratio" (9 / 10) 1 =
      ([], ["Fetching page 1"]) := by
  simp only [fetch_and_filter_repos]
  rw [sampleFetch "language:C++"]
  rw [show filterEligibleLoop sampleLangs "cpp_ratio" (9 / 10)
    (FetchResult.mk [mockRepo] ["Fetching page 1"]).repos = [] from by
      with_unfolding_all decide]
  simp [sortByStarsDesc]

theorem sampleTrace :
    (get_github_projects_by_language sampleSearch sampleLangs 1 "c.jsonl" "cpp.jsonl" 1 1).1 =
      emitLanguage "c.jsonl" sampleLangs "c_ratio" "C" [mockRepo] 1 1 ++
      emitLanguage "cpp.jsonl" sampleLangs "cpp_ratio" "C++" [] 1 1 := by
  simp only [get_github_projects_by_language]
  rw [samplePipeline_c, samplePipeline_cpp]

theorem sampleTrace_c_mem :
    Event.writeLine "c.jsonl" (makeRecord sampleLangs "c_ratio" 1 mockRepo) true ∈
      (get_github_projects_by_language sampleSearch sampleLangs 1 "c.jsonl" "cpp.jsonl" 1 1).1 := by
  rw [sampleTrace]
  with_unfolding_all decide

/-- The record the pipeline writes in a concrete run has field list
rank, name, url, stars, forks, c_ratio — so its field set is not
rank, name, url, stars, forks, ratio as the claim states: there is no
field literally named "ratio". -/
theorem claim_C6_counterexample :
    (Event.writeLine "c.jsonl" (makeRecord sampleLangs "c_ratio" 1 mockRepo) true ∈
      (get_github_projects_by_language sampleSearch sampleLangs 1 "c.jsonl" "cpp.jsonl" 1 1).1) ∧
    (makeRecord sampleLangs "c_ratio" 1 mockRepo).map Prod.fst =
      ["rank", "name", "url", "stars", "forks", "c_ratio"] ∧
    (makeRecord sampleLangs "c_ratio" 1 mockRepo).map Prod.fst ≠
      ["rank", "name", "url", "stars", "forks", "ratio"] ∧
    "ratio" ∉ (makeRecord sampleLangs "c_ratio" 1 mockRepo).map Prod.fst :=
  ⟨sampleTrace_c_mem, by decide, by decide, by decide⟩

theorem claim_C6_witness :
    (Event.writeLine "c.jsonl" (makeRecord sampleLangs "c_ratio" 1 mockRepo) true ∈
      (get_github_projects_by_language sampleSearch sampleLangs 1 "c.jsonl" "cpp.jsonl" 1 1).1) ∧
    (true = true ∧
      (("c.jsonl" = "c.jsonl" ∧
        (makeRecord sampleLangs "c_ratio" 1 mockRepo).map Prod.fst =
          ["rank", "name", "url", "stars", "forks", "c_ratio"]) ∨
       ("c.jsonl" = "cpp.jsonl" ∧
        (makeRecord sampleLangs "c_ratio" 1 mockRepo).map Prod.fst =
          ["rank", "name", "url", "stars", "forks", "cpp_ratio"]))) :=
  ⟨sampleTrace_c_mem,
   claim_C6 sampleSearch sampleLangs 1 "c.jsonl" "cpp.jsonl" 1 1 _ _ _ sampleTrace_c_mem⟩

theorem claim_C9_witness :
    (Event.writeLine "c.jsonl" (makeRecord sampleLangs "c_ratio" 1 mockRepo) true ∈
      (get_github_projects_by_language sampleSearch sampleLangs 1 "c.jsonl" "cpp.jsonl" 1 1).1) ∧
    (∃ repo : Repo, ∃ key : String,
      (key = "c_ratio" ∨ key = "cpp_ratio") ∧
      (makeRecord sampleLangs "c_ratio" 1 mockRepo).lookup "name" =
        some (JVal.s repo.full_name) ∧
      (makeRecord sampleLangs "c_ratio" 1 mockRepo).lookup key =
        some (JVal.q ((calculate_language_ratios
          (sampleLangs repo.owner_login repo.name)).getKey key)) ∧
      (9 / 10 : ℚ) ≤ (calculate_language_ratios
        (sampleLangs repo.owner_login repo.name)).getKey key) :=
  ⟨sampleTrace_c_mem,
   claim_C9 sampleSearch sampleLangs 1 "c.jsonl" "cpp.jsonl" 1 1 _ _ _ sampleTrace_c_mem⟩

end GetTopCCpp
